import Mathlib

/-!
Verification of the `justfishin` S3-retrieval script against its design
specification.  The Python source (src/justfishin.py) is shallowly embedded
below: pure functions become Lean functions, the interactive loop becomes an
explicit step function driven by a list of console inputs, and the filesystem
touched by extraction becomes an explicit list of written paths.  POSIX path
arithmetic (`os.path.join`, `os.path.normpath`, `os.path.abspath`,
`os.path.commonprefix`) is embedded faithfully from CPython's `posixpath`
module, with the process working directory passed explicitly.
-/

namespace Justfishin

/-! ### POSIX path model (CPython `posixpath`) -/

/-- `str.split(sep)` for a one-character separator: splits a character list on
every occurrence of `c`, keeping empty components, as Python does. -/
def splitOnChar (c : Char) : List Char → List (List Char)
  | [] => [[]]
  | x :: xs =>
    match splitOnChar c xs with
    | [] => [[]]
    | h :: t => if x = c then [] :: h :: t else (x :: h) :: t

/-- `sep.join(parts)` for a one-character separator. -/
def intercalateChar (c : Char) : List (List Char) → List Char
  | [] => []
  | [p] => p
  | p :: ps => p ++ c :: intercalateChar c ps

/-- The body of `posixpath.normpath`'s component loop: fold the split
components, dropping `''` and `'.'` and resolving `'..'` exactly as the
CPython source does. -/
def normpathComps (initialSlashes : Nat) (acc : List (List Char)) :
    List (List Char) → List (List Char)
  | [] => acc
  | comp :: rest =>
    if comp = [] ∨ comp = ['.'] then
      normpathComps initialSlashes acc rest
    else if comp ≠ ['.', '.'] ∨ (initialSlashes = 0 ∧ acc = []) ∨
        (acc ≠ [] ∧ acc.getLast? = some ['.', '.']) then
      normpathComps initialSlashes (acc ++ [comp]) rest
    else if acc ≠ [] then
      normpathComps initialSlashes acc.dropLast rest
    else
      normpathComps initialSlashes acc rest

/-- `posixpath.normpath`: collapse `.` and redundant slashes, resolve `..`
lexically, preserve one or two leading slashes. -/
def normpath (path : String) : String :=
  if path = "" then "."
  else
    let initialSlashes : Nat :=
      if path.data.take 1 = ['/'] then
        if path.data.take 2 = ['/', '/'] ∧ path.data.take 3 ≠ ['/', '/', '/'] then 2
        else 1
      else 0
    let comps := normpathComps initialSlashes [] (splitOnChar '/' path.data)
    let joined := List.replicate initialSlashes '/' ++ intercalateChar '/' comps
    if joined = [] then "." else ⟨joined⟩

/-- `posixpath.join` restricted to two arguments, as the script uses it. -/
def os_path_join (a b : String) : String :=
  if b.data.take 1 = ['/'] then b
  else if a = "" ∨ a.data.getLast? = some '/' then a ++ b
  else a ++ "/" ++ b

/-- `posixpath.abspath` with the process working directory `cwd` made
explicit: prepend `cwd` to relative paths, then normalize.  (No symlink
resolution: that is `realpath`, which the script does not call.) -/
def abspath (cwd p : String) : String :=
  if p.data.take 1 = ['/'] then normpath p else normpath (os_path_join cwd p)

/-- Character-wise longest common run of two character lists, as
`os.path.commonprefix` computes it (a *string* operation, not a path one). -/
def commonPrefixChars : List Char → List Char → List Char
  | x :: xs, y :: ys => if x = y then x :: commonPrefixChars xs ys else []
  | _, _ => []

/-- `os.path.commonprefix([a, b])`. -/
def commonPrefixStr (a b : String) : String :=
  ⟨commonPrefixChars a.data b.data⟩

/-! ### Safe extractor (src/justfishin.py lines 86-105) -/

/-- `is_within_directory(directory, target)`: absolutize both paths and test
whether their character-wise common run equals the absolutized directory. -/
def is_within_directory (cwd directory target : String) : Bool :=
  commonPrefixStr (abspath cwd directory) (abspath cwd target) == abspath cwd directory

/-- The `for member in tar.getmembers()` check loop of `safe_extract`: the
first member whose joined path fails `is_within_directory`, if any.  The
Python loop raises at that member, before any extraction. -/
def firstTraversal (cwd path : String) : List String → Option String
  | [] => none
  | m :: rest =>
    if is_within_directory cwd path (os_path_join path m) then
      firstTraversal cwd path rest
    else some m

/-- Model of `tar.extractall(path)`: record one write per member, at the
member's name joined under `path` (the stdlib writes each member there). -/
def extractall (path : String) (members fs : List String) : List String :=
  fs ++ members.map (fun m => os_path_join path m)

/-- `safe_extract(tar, path)`: check every member first; if some member's
candidate path fails the containment check, raise (second component `some`
error message) without touching the filesystem `fs`; otherwise extract all
members.  `members` are the stored entry names of the archive. -/
def safe_extract (cwd : String) (members : List String) (path : String)
    (fs : List String) : List String × Option String :=
  match firstTraversal cwd path members with
  | some _ => (fs, some "Attempted Path Traversal in Tar File")
  | none => (extractall path members fs, none)

/-- Written from the spec's words, for comparison with the code: the resolved
candidate is equal to, or contained within (a genuine path-component
descendant of), the resolved destination directory. -/
def spec_contained (dir target : String) : Bool :=
  target == dir || decide ((dir.data ++ ['/']) <+: target.data)

/-! ### Filter engine (src/justfishin.py lines 33-48) -/

/-- An S3 key as the script uses it: a name and a size in bytes. -/
structure Key where
  name : String
  size : Nat
deriving DecidableEq, Repr

/-- A bucket: its name and its listed keys. -/
structure Bucket where
  name : String
  keys : List Key
deriving DecidableEq, Repr

/-- Python's substring test `sub in s`, on character lists: `sub` is a prefix
of some suffix of `s`. -/
def strIn (sub : List Char) : List Char → Bool
  | [] => sub.isPrefixOf []
  | c :: cs => sub.isPrefixOf (c :: cs) || strIn sub cs

/-- The inner `yld`/`break` loop of `apply_filters`: the item passes when no
filter string is missing from its name. -/
def passes_all (name : String) : List String → Bool
  | [] => true
  | fil :: rest => if strIn fil.data name.data then passes_all name rest else false

/-- `apply_filters(contents, filters)`: yield the keys whose name passes every
filter, in order.  The Python generator is consumed with `list(...)` at both
call sites, so a list models it. -/
def apply_filters (contents : List Key) (filters : List String) : List Key :=
  match contents with
  | [] => []
  | item :: rest =>
    if passes_all item.name filters then item :: apply_filters rest filters
    else apply_filters rest filters

/-! ### Presentation formatter (src/justfishin.py lines 51-70) -/

/-- `format_bucket(bucket, contents)`. -/
def format_bucket (bucket : Bucket) (contents : List Key) : String :=
  "[Bucket " ++ bucket.name ++ ", " ++ toString contents.length ++ " items]"

/-- `format_contents(contents)`: newline-joined `* <name>` lines. -/
def format_contents (contents : List Key) : String :=
  String.intercalate "\n" (contents.map (fun item => "* " ++ item.name))

/-- Round `num / den` to the nearest integer, ties to even: the rounding
`'{:.2f}'.format` applies to the exact value of the double being printed. -/
def roundHalfEven (num den : Nat) : Nat :=
  if 2 * (num % den) < den then num / den
  else if den < 2 * (num % den) then num / den + 1
  else if num / den % 2 = 0 then num / den else num / den + 1

/-- `bytes_to_mibibytes(num_bytes)`: division by 1024 twice.  Embedded over ℚ:
for `num_bytes < 2^53` the two Python float divisions are exact (scaling by a
power of two), so the double equals this rational exactly. -/
def bytes_to_mibibytes (num_bytes : Nat) : ℚ :=
  (num_bytes : ℚ) / 1024 / 1024

/-- The value of `bytes_to_mibibytes num_bytes` in hundredths of a MiB,
rounded as `'{:.2f}'` rounds: `100 * n / 2^20 = 25 * n / 2^18`, half to
even. -/
def mibCenti (num_bytes : Nat) : Nat :=
  roundHalfEven (25 * num_bytes) (2 ^ 18)

/-- Render a count of hundredths with two digits after the point. -/
def renderCenti (c : Nat) : String :=
  toString (c / 100) ++ "." ++ (if c % 100 < 10 then "0" else "") ++ toString (c % 100)

/-- `format_bytes(num_bytes)`: the mebibyte value to two decimal places,
suffixed `MiB`. -/
def format_bytes (num_bytes : Nat) : String :=
  renderCenti (mibCenti num_bytes) ++ "MiB"

/-! ### Interactive narrowing loop (src/justfishin.py lines 108-126) -/

/-- What one `while True` iteration does after consuming one line of input:
either continue with a (possibly updated) working set, or leave the loop,
having downloaded the given key if any. -/
inductive IterResult where
  | next (contents : List Key)
  | finished (downloaded : Option Key)
deriving DecidableEq, Repr

/-- One iteration of `loop`'s body: print the bucket summary, print the full
listing when at most 9 items remain, then either handle the confirm prompt
(exactly one item) or the filter prompt.  Returns the printed lines and the
iteration's outcome; `input` is the line `raw_input` returns. -/
def loopIter (bucket : Bucket) (contents : List Key) (input : String) :
    List String × IterResult :=
  let out := [format_bucket bucket contents] ++
    (if contents.length ≤ 9 then [format_contents contents] else [])
  if contents.length = 1 then
    (out, .finished (if input.toLower = "y" ∨ input = "" then contents.head? else none))
  else
    let new_contents := apply_filters contents [input]
    if new_contents.length = 0 then (out ++ ["no matches"], .next contents)
    else (out, .next new_contents)

/-- The working set `loop` starts from (line 109):
`contents = list(apply_filters(bucket, filters))`. -/
def loopStart (bucket : Bucket) (filters : List String) : List Key :=
  apply_filters bucket.keys filters

/-- The observable state after running the loop on a finite script of console
inputs: the working set, whether the loop has exited, what was downloaded, and
everything printed. -/
structure RunState where
  contents : List Key
  finished : Bool
  downloaded : Option Key
  output : List String
deriving DecidableEq, Repr

/-- Run the loop body on each input in turn, stopping when it exits. -/
def runLoop (bucket : Bucket) (contents : List Key) : List String → RunState
  | [] => ⟨contents, false, none, []⟩
  | input :: rest =>
    match loopIter bucket contents input with
    | (out, .finished d) => ⟨contents, true, d, out⟩
    | (out, .next c) =>
      let s := runLoop bucket c rest
      ⟨s.contents, s.finished, s.downloaded, out ++ s.output⟩

/-! ### Helper lemmas -/

theorem commonPrefixChars_eq_left_iff (a b : List Char) :
    commonPrefixChars a b = a ↔ a <+: b := by
  induction a generalizing b with
  | nil => cases b <;> simp [commonPrefixChars]
  | cons x xs ih =>
    cases b with
    | nil => simp [commonPrefixChars]
    | cons y ys =>
      by_cases hxy : x = y
      · subst hxy
        simp [commonPrefixChars, ih, List.cons_prefix_cons]
      · simp [commonPrefixChars, hxy, List.cons_prefix_cons]

theorem is_within_directory_iff (cwd dir target : String) :
    is_within_directory cwd dir target = true ↔
      (abspath cwd dir).data <+: (abspath cwd target).data := by
  rw [is_within_directory, beq_iff_eq, commonPrefixStr, String.ext_iff]
  exact commonPrefixChars_eq_left_iff _ _

theorem firstTraversal_eq_none_iff (cwd path : String) (ms : List String) :
    firstTraversal cwd path ms = none ↔
      ∀ m ∈ ms, is_within_directory cwd path (os_path_join path m) = true := by
  induction ms with
  | nil => simp [firstTraversal]
  | cons m rest ih =>
    simp only [firstTraversal]
    split
    · simp_all
    · simp_all

/-! ### Claim theorems: safe extractor -/

/-- C1 (counterexample): the claim "safe_extract raises iff some entry's
resolved candidate path is not equal to and not contained within the resolved
destination" is false.  With working directory `/a/b` and destination `.`,
the entry `../bc/f` resolves to `/a/bc/f` — outside the destination `/a/b` —
yet `safe_extract` raises nothing, because `os.path.commonprefix` compares
character-wise and `/a/b` is a character prefix of `/a/bc/f`. -/
theorem safe_extract_accepts_sibling_escape :
    (safe_extract "/a/b" ["../bc/f"] "." []).2 = none ∧
    abspath "/a/b" "." = "/a/b" ∧
    abspath "/a/b" (os_path_join "." "../bc/f") = "/a/bc/f" ∧
    spec_contained "/a/b" "/a/bc/f" = false := by
  refine ⟨by decide, by decide, by decide, by decide⟩

/-- C1 (amended): `safe_extract` raises the path-traversal error if and only
if some entry's candidate output path, after resolving both it and the
destination with `abspath`, does not extend the resolved destination
character-wise (so genuine containment implies acceptance, but a sibling
path that extends the destination's name as a string is also accepted, and
symlinks are not resolved at all). -/
theorem safe_extract_raises_iff (cwd : String) (members : List String)
    (path : String) (fs : List String) :
    (safe_extract cwd members path fs).2 = some "Attempted Path Traversal in Tar File" ↔
      ∃ m ∈ members,
        ¬ (abspath cwd path).data <+: (abspath cwd (os_path_join path m)).data := by
  have h1 : (safe_extract cwd members path fs).2 =
      some "Attempted Path Traversal in Tar File" ↔
      ¬ firstTraversal cwd path members = none := by
    unfold safe_extract
    cases firstTraversal cwd path members <;> simp
  rw [h1, firstTraversal_eq_none_iff]
  push_neg
  simp only [ne_eq, is_within_directory_iff]

/-- C2: whenever `safe_extract` raises the path-traversal error, the
filesystem is untouched: the per-entry check loop runs before `extractall`,
so a single offending entry aborts the whole archive with no writes. -/
theorem safe_extract_error_no_writes (cwd : String) (members : List String)
    (path : String) (fs : List String) (err : String)
    (h : (safe_extract cwd members path fs).2 = some err) :
    (safe_extract cwd members path fs).1 = fs := by
  unfold safe_extract at h ⊢
  cases hf : firstTraversal cwd path members <;> simp [hf] at h ⊢

/-- C2 (witness): the spec's own example, an archive containing
`../../etc/passwd`: extraction is aborted and the prior filesystem is
returned unchanged. -/
theorem safe_extract_error_no_writes_witness :
    (safe_extract "/a/b" ["../../etc/passwd"] "." ["/a/b/old"]).1 = ["/a/b/old"] ∧
    (safe_extract "/a/b" ["../../etc/passwd"] "." ["/a/b/old"]).2 =
      some "Attempted Path Traversal in Tar File" :=
  ⟨safe_extract_error_no_writes "/a/b" ["../../etc/passwd"] "." ["/a/b/old"]
      "Attempted Path Traversal in Tar File" (by decide), by decide⟩

/-! ### Filter-engine lemmas -/

theorem strIn_nil_left (l : List Char) : strIn [] l = true := by
  cases l <;> simp [strIn]

theorem strIn_iff (sub l : List Char) : strIn sub l = true ↔ sub <:+: l := by
  induction l with
  | nil => simp [strIn]
  | cons c cs ih => simp [strIn, ih, List.infix_cons_iff, or_comm]

theorem passes_all_iff (name : String) (F : List String) :
    passes_all name F = true ↔ ∀ fil ∈ F, fil.data <:+: name.data := by
  induction F with
  | nil => simp [passes_all]
  | cons fil rest ih =>
    by_cases h : strIn fil.data name.data = true
    · rw [passes_all, if_pos h]
      simp [ih, (strIn_iff fil.data name.data).mp h]
    · rw [passes_all, if_neg h]
      simp only [Bool.false_eq_true, false_iff]
      intro hall
      exact h ((strIn_iff fil.data name.data).mpr
        (hall fil (List.mem_cons_self fil rest)))

theorem apply_filters_eq_filter (S : List Key) (F : List String) :
    apply_filters S F = S.filter (fun item => passes_all item.name F) := by
  induction S with
  | nil => rfl
  | cons item rest ih => simp [apply_filters, List.filter_cons, ih]

theorem apply_filters_sublist (S : List Key) (F : List String) :
    (apply_filters S F).Sublist S := by
  rw [apply_filters_eq_filter]
  exact List.filter_sublist S

theorem apply_filters_empty_string (S : List Key) : apply_filters S [""] = S := by
  have hpass : ∀ name : String, passes_all name [""] = true := by
    intro name
    have h0 : ("" : String).data = [] := rfl
    simp [passes_all, h0, strIn_nil_left]
  induction S with
  | nil => rfl
  | cons item rest ih => simp [apply_filters, hpass, ih]

/-! ### Claim theorem: filter engine -/

/-- C3: `apply_filters S F` is exactly the sublist of `S` of items whose name
contains every string of `F` as a substring, and `F = []` is the identity. -/
theorem apply_filters_spec (S : List Key) (F : List String) :
    apply_filters S F =
      S.filter (fun item => decide (∀ fil ∈ F, fil.data <:+: item.name.data)) ∧
    apply_filters S [] = S := by
  constructor
  · rw [apply_filters_eq_filter]
    apply List.filter_congr
    intro item _
    rw [Bool.eq_iff_iff]
    simp [passes_all_iff]
  · induction S with
    | nil => rfl
    | cons item rest ih => simp [apply_filters, passes_all, ih]

/-! ### Loop lemmas -/

theorem loopIter_next_ne_nil (bucket : Bucket) (contents : List Key)
    (h : contents ≠ []) (input : String) (c : List Key)
    (hc : (loopIter bucket contents input).2 = .next c) : c ≠ [] := by
  unfold loopIter at hc
  by_cases h1 : contents.length = 1
  · simp [h1] at hc
  · simp only [h1, if_false] at hc
    by_cases h0 : (apply_filters contents [input]).length = 0
    · simp only [h0, if_pos, if_true] at hc
      simp at hc
      exact hc.symm ▸ h
    · simp only [h0, if_false] at hc
      simp at hc
      rw [← hc]
      intro hnil
      exact h0 (by rw [hnil]; rfl)

/-! ### Claim theorems: interactive narrowing loop -/

/-- C4 (counterexample): the working set can be empty at the very start of
the loop, contrary to "never reaches zero items, including the start state":
a startup filter matching no key gives `contents = []` on line 109. -/
theorem loopStart_empty_counterexample :
    loopStart ⟨"bkt", [⟨"alpha.tar.bz2", 3⟩]⟩ ["zzz"] = [] := by decide

/-- C4 (amended): once the working set is non-empty it can never become
empty: a narrowing filter that matches nothing is discarded and the prior
working set retained, for any finite sequence of console inputs.  (The start
state itself may be empty when the startup filters match no item.) -/
theorem working_set_nonempty_preserved (bucket : Bucket) (contents : List Key)
    (h : contents ≠ []) (inputs : List String) :
    (runLoop bucket contents inputs).contents ≠ [] := by
  induction inputs generalizing contents with
  | nil => simpa [runLoop] using h
  | cons input rest ih =>
    rw [runLoop]
    rcases hit : loopIter bucket contents input with ⟨out, r⟩
    rcases r with c | d
    · have hc : c ≠ [] :=
        loopIter_next_ne_nil bucket contents h input c (by rw [hit])
      simpa using ih c hc
    · simpa using h

/-- C4 (witness). -/
theorem working_set_nonempty_preserved_witness :
    (runLoop ⟨"bkt", []⟩ [⟨"a", 1⟩, ⟨"b", 2⟩] ["zzz"]).contents ≠ [] :=
  working_set_nonempty_preserved ⟨"bkt", []⟩ [⟨"a", 1⟩, ⟨"b", 2⟩]
    (by decide) ["zzz"]

/-- C5: on a narrowing transition (working set not of size 1), an empty
candidate leaves the working set unchanged and reports "no matches"; a
non-empty candidate replaces the working set by a sublist of it; either way
the size never increases. -/
theorem narrowing_transition_monotone (bucket : Bucket) (contents : List Key)
    (fil : String) (h : contents.length ≠ 1) :
    (apply_filters contents [fil] = [] →
      (loopIter bucket contents fil).2 = .next contents ∧
      "no matches" ∈ (loopIter bucket contents fil).1) ∧
    (apply_filters contents [fil] ≠ [] →
      (loopIter bucket contents fil).2 = .next (apply_filters contents [fil]) ∧
      (apply_filters contents [fil]).Sublist contents) ∧
    (∀ c, (loopIter bucket contents fil).2 = .next c →
      c.length ≤ contents.length) := by
  unfold loopIter
  simp only [h, if_false]
  by_cases h0 : (apply_filters contents [fil]).length = 0
  · have hnil : apply_filters contents [fil] = [] := List.length_eq_zero.mp h0
    simp only [h0, if_pos, if_true]
    refine ⟨fun _ => ⟨by simp, by simp⟩, fun hne => absurd hnil hne, ?_⟩
    intro c hc
    simp at hc
    rw [← hc]
  · have hne : apply_filters contents [fil] ≠ [] := by
      intro hnil
      exact h0 (by rw [hnil]; rfl)
    simp only [h0, if_false]
    refine ⟨fun hnil => absurd hnil hne, fun _ => ⟨by simp, apply_filters_sublist contents [fil]⟩, ?_⟩
    intro c hc
    simp at hc
    rw [← hc]
    exact (apply_filters_sublist contents [fil]).length_le

/-- C5 (witness): two items, a filter matching nothing: "no matches" is
printed and the working set is kept. -/
theorem narrowing_transition_monotone_witness :
    (loopIter ⟨"bkt", []⟩ [⟨"a", 1⟩, ⟨"b", 2⟩] "zzz").2 =
      .next [⟨"a", 1⟩, ⟨"b", 2⟩] ∧
    "no matches" ∈ (loopIter ⟨"bkt", []⟩ [⟨"a", 1⟩, ⟨"b", 2⟩] "zzz").1 :=
  (narrowing_transition_monotone ⟨"bkt", []⟩ [⟨"a", 1⟩, ⟨"b", 2⟩] "zzz"
    (by decide)).1 (by decide)

/-- C6: with exactly one item remaining, the iteration always leaves the
loop, and the download+extract is invoked on that item exactly when the
reply is the empty string or a case-insensitive "y". -/
theorem terminal_state_confirm (bucket : Bucket) (k : Key) (input : String) :
    (∃ d, (loopIter bucket [k] input).2 = .finished d) ∧
    ((loopIter bucket [k] input).2 = .finished (some k) ↔
      (input.toLower = "y" ∨ input = "")) := by
  unfold loopIter
  by_cases h : input.toLower = "y" ∨ input = "" <;> simp [h]

/-- C7: every iteration prints the bucket summary (the bucket's name and the
working-set count) first, prints the newline-joined `* <name>` listing
exactly when at most 9 items remain, and prints nothing after those beyond a
possible final "no matches". -/
theorem display_step_output (bucket : Bucket) (contents : List Key)
    (input : String) :
    ∃ rest,
      (loopIter bucket contents input).1 =
        ("[Bucket " ++ bucket.name ++ ", " ++ toString contents.length ++ " items]") ::
          ((if contents.length ≤ 9 then
              [String.intercalate "\n" (contents.map (fun item => "* " ++ item.name))]
            else []) ++ rest) ∧
      (rest = [] ∨ rest = ["no matches"]) := by
  unfold loopIter
  by_cases h1 : contents.length = 1
  · refine ⟨[], ?_, Or.inl rfl⟩
    simp [h1, format_bucket, format_contents]
  · by_cases h0 : (apply_filters contents [input]).length = 0
    · refine ⟨["no matches"], ?_, Or.inr rfl⟩
      simp [h1, h0, format_bucket, format_contents]
    · refine ⟨[], ?_, Or.inl rfl⟩
      simp [h1, h0, format_bucket, format_contents]

/-- C9: started on an empty working set the loop never exits: every
narrowing attempt filters the empty set, yields an empty candidate, prints
"no matches" and keeps the empty set, for any finite input script — so the
terminal one-item state is never reached and nothing is ever downloaded. -/
theorem empty_start_never_finishes (bucket : Bucket) (inputs : List String) :
    runLoop bucket [] inputs =
      ⟨[], false, none,
        (List.replicate inputs.length
          [format_bucket bucket [], format_contents [], "no matches"]).flatten⟩ := by
  induction inputs with
  | nil => simp [runLoop]
  | cons input rest ih =>
    rw [runLoop]
    have hit : loopIter bucket [] input =
        ([format_bucket bucket [], format_contents [], "no matches"], .next []) := by
      unfold loopIter
      simp [apply_filters]
    rw [hit]
    simp [ih, List.replicate_succ]

/-- C10: the empty string is an identity filter: filtering by `""` returns
the list unchanged, so an empty line at the narrowing prompt of a working
set of two or more items keeps the working set equal and prints only the
display lines, never "no matches". -/
theorem empty_filter_identity (S : List Key) (bucket : Bucket)
    (contents : List Key) (h : 2 ≤ contents.length) :
    apply_filters S [""] = S ∧
    (loopIter bucket contents "").2 = .next contents ∧
    (loopIter bucket contents "").1 =
      [format_bucket bucket contents] ++
        (if contents.length ≤ 9 then [format_contents contents] else []) := by
  have h1 : contents.length ≠ 1 := by omega
  have hfix : apply_filters contents [""] = contents :=
    apply_filters_empty_string contents
  have h0 : (apply_filters contents [""]).length ≠ 0 := by
    rw [hfix]; omega
  have hne : contents ≠ [] := by
    intro hnil
    rw [hnil] at h
    simp at h
  refine ⟨apply_filters_empty_string S, ?_, ?_⟩
  · unfold loopIter
    simp [h1, h0, hfix, hne]
  · unfold loopIter
    simp [h1, h0]

/-- C10 (witness). -/
theorem empty_filter_identity_witness :
    apply_filters [⟨"a", 1⟩] [""] = [⟨"a", 1⟩] ∧
    (loopIter ⟨"bkt", []⟩ [⟨"a", 1⟩, ⟨"b", 2⟩] "").2 =
      .next [⟨"a", 1⟩, ⟨"b", 2⟩] ∧
    (loopIter ⟨"bkt", []⟩ [⟨"a", 1⟩, ⟨"b", 2⟩] "").1 =
      [format_bucket ⟨"bkt", []⟩ [⟨"a", 1⟩, ⟨"b", 2⟩]] ++
        (if ([⟨"a", 1⟩, ⟨"b", 2⟩] : List Key).length ≤ 9 then
          [format_contents [⟨"a", 1⟩, ⟨"b", 2⟩]] else []) :=
  empty_filter_identity [⟨"a", 1⟩] ⟨"bkt", []⟩ [⟨"a", 1⟩, ⟨"b", 2⟩] (by decide)

/-! ### Byte-formatting lemmas -/

theorem roundHalfEven_mono (den a b : Nat) (hden : 0 < den) (hab : a ≤ b) :
    roundHalfEven a den ≤ roundHalfEven b den := by
  have hra : a % den < den := Nat.mod_lt a hden
  have hrb : b % den < den := Nat.mod_lt b hden
  have hq : a / den ≤ b / den := Nat.div_le_div_right hab
  have hcases : a / den < b / den ∨ (a / den = b / den ∧ a % den ≤ b % den) := by
    rcases Nat.lt_or_ge (a / den) (b / den) with h | h
    · exact Or.inl h
    · have hqeq : a / den = b / den := le_antisymm hq h
      have hK : den * (a / den) = den * (b / den) := by rw [hqeq]
      have hda := Nat.div_add_mod a den
      have hdb := Nat.div_add_mod b den
      exact Or.inr ⟨hqeq, by omega⟩
  unfold roundHalfEven
  rcases hcases with h | ⟨h1, h2⟩ <;> split_ifs <;> omega

/-! ### Claim theorem: byte formatting -/

/-- C8: `format_bytes` renders one mebibyte as `"1.00MiB"` (and the rational
embedding of `bytes_to_mibibytes` reproduces the repo's own unit tests), and
the rendered hundredths-of-a-MiB value is non-decreasing in the byte
count. -/
theorem format_bytes_props :
    format_bytes 1048576 = "1.00MiB" ∧
    bytes_to_mibibytes 1048576 = 1 ∧
    bytes_to_mibibytes (1048576 / 2) = 1 / 2 ∧
    (∀ n m : Nat, n ≤ m → mibCenti n ≤ mibCenti m) := by
  refine ⟨by decide, by norm_num [bytes_to_mibibytes], by norm_num [bytes_to_mibibytes], ?_⟩
  intro n m h
  exact roundHalfEven_mono (2 ^ 18) (25 * n) (25 * m) (by norm_num) (by omega)

/-- C8 (witness). -/
theorem format_bytes_props_witness :
    mibCenti 1048576 ≤ mibCenti 2097152 ∧ format_bytes 1048576 = "1.00MiB" :=
  ⟨format_bytes_props.2.2.2 1048576 2097152 (by omega), format_bytes_props.1⟩

end Justfishin
